import Mathlib

/-!
Verification of the metric-comparison core (`compare.go` of ftdc-utils).

The Go source is embedded shallowly:

* Go `float64` arithmetic is modelled by exact rational arithmetic (`ℚ`).
  Every float computed by the program before the final `math.Sqrt` call is an
  exact rational of the inputs; the final square root is kept symbolic in the
  type `GoFloat` below, which also models IEEE-754 NaN.  Floating-point
  rounding error is abstracted away (exact-real semantics).
* Go `int` fields of the statistics are modelled by `ℤ` (they are printed
  with `%d` and cast with `float64(...)` in the source); the sample count is
  modelled by `ℕ` (per the spec it is a sample count, and negative counts are
  explicitly unvalidated caller error, §7).
* The Go map `map[string]MetricStat` is modelled by an association list with
  unique keys; `Proximal` sorts the per-metric scores before any
  order-sensitive use, so the unspecified map iteration order is benign.
* The mutable package-level variable `CmpThreshold` is passed explicitly as
  the parameter `t` of each function that reads it.
-/

/-- Statistical summary of one metric.  Modelled from the spec: the
`MetricSummary`/`MetricStat` type is declared outside the compared source
file; per the spec it carries `Median` and `MAD`, and the source formats both
with `%d` and casts them with `float64(...)`, so they are integers. -/
structure MetricStat where
  Median : ℤ
  MAD : ℤ
  deriving DecidableEq

/-- Snapshot of sampled statistics.  Modelled from the spec: `Stats` is
declared outside the compared source file; per the spec it holds `NSamples`
(integer sample count) and `Metrics` (mapping from metric key to summary,
keys unique).  The Go map is modelled as an association list. -/
structure Stats where
  NSamples : ℕ
  Metrics : List (String × MetricStat)
  deriving DecidableEq

/-- Result value of one application of `math.Sqrt`: either IEEE NaN (from a
negative argument) or the exact real square root of the rational `q`,
represented symbolically.  `GoFloat.sqrtOf q` denotes the real number
`Real.sqrt q`; the lemmas `GoFloat.geQ_eq_true_iff` and
`GoFloat.ltQ_eq_true_iff` below tie the executable comparisons to that
denotation. -/
inductive GoFloat where
  | nan : GoFloat
  | sqrtOf (q : ℚ) : GoFloat
  deriving DecidableEq

/-- Model of `math.Sqrt` on an exact rational argument: IEEE-754 returns NaN
for a negative argument, otherwise the (irrational in general) square root,
kept symbolic. -/
def goSqrt (q : ℚ) : GoFloat :=
  if q < 0 then GoFloat.nan else GoFloat.sqrtOf q

/-- Model of the float comparison `s >= x` where `s` is the result of
`math.Sqrt`.  Any comparison with NaN is false in IEEE-754.  For a
non-negative radicand `q`, `Real.sqrt q ≥ x` holds iff `x ≤ 0` or `x² ≤ q`;
this decidable form is proved equivalent to the real statement in
`GoFloat.geQ_eq_true_iff`. -/
def GoFloat.geQ : GoFloat → ℚ → Bool
  | GoFloat.nan, _ => false
  | GoFloat.sqrtOf q, x => x ≤ 0 || x ^ 2 ≤ q

/-- Model of the float comparison `s < x` where `s` is the result of
`math.Sqrt`.  Any comparison with NaN is false in IEEE-754.  For a
non-negative radicand `q`, `Real.sqrt q < x` holds iff `0 < x` and `q < x²`;
this decidable form is proved equivalent to the real statement in
`GoFloat.ltQ_eq_true_iff`. -/
def GoFloat.ltQ : GoFloat → ℚ → Bool
  | GoFloat.nan, _ => false
  | GoFloat.sqrtOf q, x => 0 < x && q < x ^ 2

/-- Model of the float division `x / y` feeding a comparison: `none` models
NaN.  In the one place this is used (`sampleRatio`), the denominator is
`max aCount bCount` of two non-negative counts and the numerator is
`|aCount - bCount|`, so a zero denominator forces a zero numerator and the
IEEE result is `0.0/0.0 = NaN`; the infinite cases `x/0` with `x ≠ 0` cannot
arise (lemma `sampleRatio_den_zero`). -/
def goDivOpt (x y : ℚ) : Option ℚ :=
  if y = 0 then none else some (x / y)

/-- Model of the float comparison `d > t` where `d` may be NaN (`none`):
IEEE-754 comparisons with NaN are false. -/
def goGtOpt : Option ℚ → ℚ → Bool
  | none, _ => false
  | some q, t => t < q

/-- The allow-list `cmpMetrics` of compare.go, as a list of keys (the Go
source uses a `map[string]bool` whose values are all `true`, i.e. a set).
Keys are kept as character lists, the model of Go strings used by the
splitting code below. -/
def cmpMetrics : List (List Char) :=
  ["end".toList,
   "start".toList,
   "serverStatus.start".toList,
   "serverStatus.end".toList,
   "serverStatus.asserts".toList,
   "serverStatus.mem.mapped".toList,
   "serverStatus.mem.mappedWithJournal".toList,
   "serverStatus.mem.resident".toList,
   "serverStatus.mem.supported".toList,
   "serverStatus.mem.virtual".toList,
   "serverStatus.metrics.commands".toList,
   "serverStatus.metrics.cursor.open".toList,
   "serverStatus.metrics.document".toList,
   "serverStatus.metrics.operation".toList,
   "serverStatus.metrics.queryExecutor".toList,
   "serverStatus.metrics.record".toList,
   "serverStatus.metrics.repl".toList,
   "serverStatus.metrics.storage".toList,
   "serverStatus.metrics.ttl".toList,
   "serverStatus.opcounters".toList,
   "serverStatus.opcountersRepl".toList,
   "serverStatus.wiredTiger.LSM".toList,
   "serverStatus.wiredTiger.async".toList,
   "serverStatus.wiredTiger.block-manager".toList,
   "serverStatus.wiredTiger.cache".toList,
   "serverStatus.wiredTiger.concurrentTransactions".toList,
   "serverStatus.wiredTiger.data-handle".toList,
   "serverStatus.wiredTiger.reconciliation".toList,
   "serverStatus.wiredTiger.session".toList,
   "serverStatus.writeBacksQueued".toList]

/-- Model of `strings.Split(key, ".")` on the character-list representation:
splits at every `'.'`, keeping empty segments, with the accumulator `cur`
holding the current segment reversed. -/
def splitAux : List Char → List Char → List (List Char)
  | [], cur => [cur.reverse]
  | c :: rest, cur =>
      if c = '.' then cur.reverse :: splitAux rest [] else splitAux rest (c :: cur)

/-- Model of `strings.Split(key, ".")`: `strings.Split` of a non-empty
separator splits at every occurrence, keeping empty segments; the empty
string yields `[""]`. -/
def splitOnDot (key : String) : List (List Char) :=
  splitAux key.toList []

/-- The `isCmpMetric` filter of compare.go: split the key on dots and test
whether the join of the first `i+1` segments (for any `i` below the number of
segments, exactly Go's `for i := range s` with `strings.Join(s[:i+1], ".")`)
is in the allow-list. -/
def isCmpMetric (key : String) : Bool :=
  let s := splitOnDot key
  (List.range s.length).any fun i =>
    cmpMetrics.contains (List.intercalate ['.'] (s.take (i + 1)))

/-- The constant `badTimePenalty = -0.1` of compare.go (exactly representable
in `float64`). -/
def badTimePenalty : ℚ := -1 / 10

/-- The `cmpScore` struct of compare.go: a numeric score and a diagnostic
message for one metric. -/
structure cmpScore where
  num : ℚ
  msg : String
  deriving DecidableEq

/-- The comparison used by `cmpScores.Less` (`s[i].num < s[j].num`), given to
the sorting routine as a non-strict total order as required by a
correctness-preserving sort: `sort.Sort` with the strict `Less` produces
some ascending-by-`num` permutation (ties in unspecified order, the Go sort
being unstable over a randomized map iteration); `List.mergeSort` with this
`≤`-test produces one such ascending permutation. -/
def scoreLE (x y : cmpScore) : Bool :=
  x.num ≤ y.num

/-- Model of Go's `int(q)` conversion from float to int: truncation toward
zero. -/
def goTruncInt (q : ℚ) : ℤ :=
  q.num.tdiv q.den

/-- The message line of compare.go built by
`fmt.Sprintf("sample count not proximal: (%d, %d) are not within threshold
(%d%%)\n", a.NSamples, b.NSamples, int(CmpThreshold*100))`. -/
def sampleCountMsg (na nb : ℕ) (t : ℚ) : String :=
  "sample count not proximal: (" ++ toString na ++ ", " ++ toString nb ++
    ") are not within threshold (" ++ toString (goTruncInt (t * 100)) ++ "%)\n"

/-- The message line of compare.go built by
`fmt.Sprintf("metric '%s' not proximal: deviations (%d, %d) are not within
threshold (%d)\n", key, a.MAD, b.MAD, int(CmpThreshold*100))`. -/
def madMsg (key : String) (amad bmad : ℤ) (t : ℚ) : String :=
  "metric '" ++ key ++ "' not proximal: deviations (" ++ toString amad ++
    ", " ++ toString bmad ++ ") are not within threshold (" ++
    toString (goTruncInt (t * 100)) ++ ")\n"

/-- The message line of compare.go built by
`fmt.Sprintf("metric '%s' not proximal: medians (%d, %d) are not within
threshold (%d)\n", key, a.Median, b.Median, int(CmpThreshold*100))`. -/
def medMsg (key : String) (amed bmed : ℤ) (t : ℚ) : String :=
  "metric '" ++ key ++ "' not proximal: medians (" ++ toString amed ++
    ", " ++ toString bmed ++ ") are not within threshold (" ++
    toString (goTruncInt (t * 100)) ++ ")\n"

/-- The `compareMetrics` function of compare.go.  `t` is the package-level
`CmpThreshold`.  Indexing a Go map at an absent key yields the zero value,
hence `getD ⟨0, 0⟩` (the function is only ever called on keys present in
both maps). -/
def compareMetrics (sa sb : Stats) (key : String) (t : ℚ) : cmpScore :=
  let a := (sa.Metrics.lookup key).getD ⟨0, 0⟩
  let b := (sb.Metrics.lookup key).getD ⟨0, 0⟩
  if a.Median = b.Median then { num := 1, msg := "" }
  else
    let maxmad : ℚ := max |(a.MAD : ℚ)| |(b.MAD : ℚ)|
    let maxmed : ℚ := max |(a.Median : ℚ)| |(b.Median : ℚ)|
    if maxmad = 0 || maxmed = 0 then { num := 1, msg := "" }
    else
      let relmad := |((a.MAD - b.MAD : ℤ) : ℚ)| / maxmad
      let relmed := |((a.Median - b.Median : ℤ) : ℚ)| / maxmed
      { num := (1 - relmed) * (1 - relmad),
        msg := (if relmad > t then madMsg key a.MAD b.MAD t else "") ++
               (if relmed > t then medMsg key a.Median b.Median t else "") }

/-- The ratio `diff / max` of the sample-count check in `Proximal`
(`aCount`, `bCount` are `float64(a.NSamples)`, `float64(b.NSamples)`);
`none` models the NaN produced by `0.0/0.0` when both counts are zero. -/
def sampleRatio (a b : Stats) : Option ℚ :=
  goDivOpt |(a.NSamples : ℚ) - (b.NSamples : ℚ)|
    (max (a.NSamples : ℚ) (b.NSamples : ℚ))

/-- The condition `diff/max > CmpThreshold` of `Proximal` guarding both the
sample-count message and the `badTimePenalty` starting score. -/
def penaltyTriggered (a b : Stats) (t : ℚ) : Bool :=
  goGtOpt (sampleRatio a b) t

/-- The collection loop of `Proximal`: for every key of `a.Metrics` that is
also in `b.Metrics` and passes `isCmpMetric`, the `compareMetrics` score, in
map order (the subsequent sort makes the iteration order irrelevant to the
result up to ties in diagnostic fragments). -/
def gatherScores (a b : Stats) (t : ℚ) : List cmpScore :=
  a.Metrics.filterMap fun p =>
    if (b.Metrics.lookup p.1).isSome && isCmpMetric p.1 then
      some (compareMetrics a b p.1 t)
    else none

/-- The `sort.Sort(scores)` step of `Proximal`: the collected scores in
ascending order of `num`. -/
def sortedScores (a b : Stats) (t : ℚ) : List cmpScore :=
  (gatherScores a b t).mergeSort scoreLE

/-- The weighting loop of `Proximal`:
`for i, c := range scores { score += math.Pow(2, -float64(i+1)) * c.num }`,
started from the Step-1 accumulator `init`. -/
def weightedLoop (init : ℚ) (scores : List cmpScore) : ℚ :=
  scores.enum.foldl (fun s ic => s + (2 : ℚ) ^ (-((ic.1 : ℤ) + 1)) * ic.2.num) init

/-- The accumulator of `Proximal` just before the `math.Sqrt` call: the
Step-1 penalty (if triggered) plus the rank-weighted sum over the sorted
scores. -/
def finalAcc (a b : Stats) (t : ℚ) : ℚ :=
  weightedLoop (if penaltyTriggered a b t then badTimePenalty else 0)
    (sortedScores a b t)

/-- The named return values `(msg, score, ok)` of `Proximal`. -/
structure ProximalResult where
  msg : String
  score : GoFloat
  ok : Bool
  deriving DecidableEq

/-- The `Proximal` function of compare.go.  `t` is the package-level
`CmpThreshold`.  (The local `sumScores` of the source is dead code and is
omitted.) -/
def Proximal (a b : Stats) (t : ℚ) : ProximalResult :=
  let score := goSqrt (finalAcc a b t)
  { msg := (if penaltyTriggered a b t then sampleCountMsg a.NSamples b.NSamples t
            else "") ++
           String.join ((sortedScores a b t).map cmpScore.msg),
    score := score,
    ok := score.geQ (1 - t) }

/-- Specification-side form of the weighting loop: the elements of `l` from
index position `i` onward, each weighted by `2^-(i+1)` for its position
`i`. -/
def weightedFrom : ℕ → List cmpScore → ℚ
  | _, [] => 0
  | i, c :: rest => (2 : ℚ) ^ (-((i : ℤ) + 1)) * c.num + weightedFrom (i + 1) rest

/-- The concrete single-metric scenario of the spec: 100 samples, one
comparable metric `serverStatus.mem.resident` with median 50 and MAD 2. -/
def scenarioStats : Stats :=
  { NSamples := 100, Metrics := [("serverStatus.mem.resident", ⟨50, 2⟩)] }

/-- Variant of `scenarioStats` with the median doubled to 100 (the spec's
second scenario). -/
def scenarioStatsB : Stats :=
  { NSamples := 100, Metrics := [("serverStatus.mem.resident", ⟨100, 2⟩)] }

/-- A snapshot with two comparable metrics (both `start` and `end` are in
the allow-list). -/
def twoMetricStats : Stats :=
  { NSamples := 100, Metrics := [("start", ⟨1, 2⟩), ("end", ⟨3, 4⟩)] }

/-- A metric-free snapshot with 100 samples. -/
def emptyStats100 : Stats := { NSamples := 100, Metrics := [] }

/-- A metric-free snapshot with 200 samples (sample count not proximal to
100 at the default threshold). -/
def emptyStats200 : Stats := { NSamples := 200, Metrics := [] }

/-- A snapshot with zero samples and no metrics. -/
def zeroStats : Stats := { NSamples := 0, Metrics := [] }

/-- Input with median 1 and MAD 5 on the comparable metric `start`. -/
def oppStatsA : Stats := { NSamples := 100, Metrics := [("start", ⟨1, 5⟩)] }

/-- Input with median -1 and MAD 5 on the comparable metric `start`:
compared with `oppStatsA` the relative median deviation is 2. -/
def oppStatsB : Stats := { NSamples := 100, Metrics := [("start", ⟨-1, 5⟩)] }

/-! ## Semantics of the symbolic square root -/

/-- Correctness of the decidable comparison `geQ` against the real
denotation: for a non-negative radicand, `geQ` decides `x ≤ √q`. -/
theorem GoFloat.geQ_eq_true_iff {q x : ℚ} (_hq : 0 ≤ q) :
    (GoFloat.sqrtOf q).geQ x = true ↔ (x : ℝ) ≤ Real.sqrt (q : ℝ) := by
  simp only [GoFloat.geQ, Bool.or_eq_true, decide_eq_true_iff]
  constructor
  · rintro (hx | hx2)
    · exact le_trans (by exact_mod_cast hx) (Real.sqrt_nonneg _)
    · rcases le_or_lt x 0 with hx | hx
      · exact le_trans (by exact_mod_cast hx) (Real.sqrt_nonneg _)
      · exact (Real.le_sqrt' (by exact_mod_cast hx)).mpr (by exact_mod_cast hx2)
  · intro h
    rcases le_or_lt x 0 with hx | hx
    · exact Or.inl hx
    · refine Or.inr ?_
      have := (Real.le_sqrt' (by exact_mod_cast hx)).mp h
      exact_mod_cast this

/-- Correctness of the decidable comparison `ltQ` against the real
denotation: for a non-negative radicand, `ltQ` decides `√q < x`. -/
theorem GoFloat.ltQ_eq_true_iff {q x : ℚ} (_hq : 0 ≤ q) :
    (GoFloat.sqrtOf q).ltQ x = true ↔ Real.sqrt (q : ℝ) < (x : ℝ) := by
  simp only [GoFloat.ltQ, Bool.and_eq_true, decide_eq_true_iff]
  constructor
  · rintro ⟨hx, hq2⟩
    exact (Real.sqrt_lt' (by exact_mod_cast hx)).mpr (by exact_mod_cast hq2)
  · intro h
    have hx : (0 : ℝ) < (x : ℚ) := lt_of_le_of_lt (Real.sqrt_nonneg _) h
    have hx' : (0 : ℚ) < x := by exact_mod_cast hx
    refine ⟨hx', ?_⟩
    have := (Real.sqrt_lt' hx).mp h
    exact_mod_cast this

/-! ## The weighting loop -/

theorem foldl_enumFrom_eq_weightedFrom (l : List cmpScore) :
    ∀ (n : ℕ) (init : ℚ),
      (List.enumFrom n l).foldl
          (fun s ic => s + (2 : ℚ) ^ (-((ic.1 : ℤ) + 1)) * ic.2.num) init
        = init + weightedFrom n l := by
  induction l with
  | nil => intro n init; simp [weightedFrom]
  | cons c rest ih =>
      intro n init
      simp only [List.enumFrom_cons, List.foldl_cons, weightedFrom, ih]
      ring

theorem weightedLoop_eq (init : ℚ) (l : List cmpScore) :
    weightedLoop init l = init + weightedFrom 0 l := by
  have h := foldl_enumFrom_eq_weightedFrom l 0 init
  simpa [weightedLoop, List.enum_eq_enumFrom] using h

theorem finalAcc_eq (a b : Stats) (t : ℚ) :
    finalAcc a b t
      = (if penaltyTriggered a b t then badTimePenalty else 0)
        + weightedFrom 0 (sortedScores a b t) := by
  simp [finalAcc, weightedLoop_eq]

/-- The weighting loop depends only on the numeric components, in order. -/
theorem weightedFrom_congr :
    ∀ {l₁ l₂ : List cmpScore} (n : ℕ),
      l₁.map cmpScore.num = l₂.map cmpScore.num →
      weightedFrom n l₁ = weightedFrom n l₂ := by
  intro l₁
  induction l₁ with
  | nil =>
      intro l₂ n h
      cases l₂ with
      | nil => rfl
      | cons c l => simp at h
  | cons c l ih =>
      intro l₂ n h
      cases l₂ with
      | nil => simp at h
      | cons c₂ l₂' =>
          simp only [List.map_cons, List.cons.injEq] at h
          simp only [weightedFrom, h.1, ih (n + 1) h.2]

theorem weightedFrom_nil (i : ℕ) : weightedFrom i [] = 0 := rfl

theorem weightedFrom_cons (i : ℕ) (c : cmpScore) (rest : List cmpScore) :
    weightedFrom i (c :: rest)
      = (2 : ℚ) ^ (-((i : ℤ) + 1)) * c.num + weightedFrom (i + 1) rest := rfl

/-- Closed form of the weighting loop as a rank-indexed finite sum. -/
theorem weightedFrom_eq_sum :
    ∀ (l : List cmpScore) (n : ℕ),
      weightedFrom n l
        = ∑ i ∈ Finset.range l.length,
            (2 : ℚ) ^ (-(((n + i : ℕ) : ℤ)) - 1) * (l.map cmpScore.num).getD i 0 := by
  intro l
  induction l with
  | nil => intro n; simp [weightedFrom]
  | cons c rest ih =>
      intro n
      rw [List.length_cons, Finset.sum_range_succ']
      simp only [weightedFrom_cons, List.map_cons, List.getD_cons_succ, List.getD_cons_zero]
      rw [ih (n + 1)]
      have hsum :
          ∑ i ∈ Finset.range rest.length,
              (2 : ℚ) ^ (-(((n + 1 + i : ℕ) : ℤ)) - 1) * (rest.map cmpScore.num).getD i 0
            = ∑ i ∈ Finset.range rest.length,
              (2 : ℚ) ^ (-(((n + (i + 1) : ℕ) : ℤ)) - 1) * (rest.map cmpScore.num).getD i 0 := by
        refine Finset.sum_congr rfl fun i _ => ?_
        have hc : (-(((n + 1 + i : ℕ) : ℤ)) - 1) = (-(((n + (i + 1) : ℕ) : ℤ)) - 1) := by
          push_cast; ring
        rw [hc]
      rw [hsum, add_comm]
      have h0 : (-(((n + 0 : ℕ) : ℤ)) - 1) = -((n : ℤ) + 1) := by push_cast; ring
      rw [h0]

theorem two_zpow_half (m : ℤ) :
    (2 : ℚ) ^ (-(m + 1)) + (2 : ℚ) ^ (-(m + 1)) = (2 : ℚ) ^ (-m) := by
  have h : (2 : ℚ) ^ (-m) = (2 : ℚ) ^ (-(m + 1)) * 2 := by
    rw [← zpow_add_one₀ (by norm_num : (2 : ℚ) ≠ 0)]
    congr 1
    ring
  rw [h]; ring

/-- Upper bound on the weighting loop when every score is at most 1: the
geometric tail `2^-n - 2^-(n+len)`. -/
theorem weightedFrom_le :
    ∀ (l : List cmpScore) (n : ℕ), (∀ c ∈ l, c.num ≤ 1) →
      weightedFrom n l ≤ (2 : ℚ) ^ (-(n : ℤ)) - (2 : ℚ) ^ (-(((n + l.length : ℕ) : ℤ))) := by
  intro l
  induction l with
  | nil => intro n _; simp [weightedFrom]
  | cons c rest ih =>
      intro n h
      have hc : c.num ≤ 1 := h c (List.mem_cons_self c rest)
      have hrest : ∀ x ∈ rest, x.num ≤ 1 := fun x hx => h x (List.mem_cons_of_mem c hx)
      have hpos : (0 : ℚ) < (2 : ℚ) ^ (-((n : ℤ) + 1)) := zpow_pos (by norm_num) _
      have hterm : (2 : ℚ) ^ (-((n : ℤ) + 1)) * c.num ≤ (2 : ℚ) ^ (-((n : ℤ) + 1)) :=
        calc (2 : ℚ) ^ (-((n : ℤ) + 1)) * c.num
            ≤ (2 : ℚ) ^ (-((n : ℤ) + 1)) * 1 :=
              mul_le_mul_of_nonneg_left hc (le_of_lt hpos)
          _ = (2 : ℚ) ^ (-((n : ℤ) + 1)) := mul_one _
      have hih := ih (n + 1) hrest
      have hsplit := two_zpow_half (n : ℤ)
      rw [weightedFrom_cons, List.length_cons]
      push_cast at hih ⊢
      ring_nf at hterm hih hsplit ⊢
      linarith [hterm, hih, hsplit]

/-- Exact value of the weighting loop on a block of perfect scores. -/
theorem weightedFrom_replicate :
    ∀ (k n : ℕ),
      weightedFrom n (List.replicate k ⟨1, ""⟩)
        = (2 : ℚ) ^ (-(n : ℤ)) - (2 : ℚ) ^ (-(((n + k : ℕ) : ℤ))) := by
  intro k
  induction k with
  | zero => intro n; simp [weightedFrom]
  | succ k ih =>
      intro n
      rw [List.replicate_succ, weightedFrom_cons]
      have hih := ih (n + 1)
      have hsplit := two_zpow_half (n : ℤ)
      push_cast at hih ⊢
      rw [hih]
      ring_nf at hsplit ⊢
      linarith [hsplit]

/-! ## Per-metric score facts -/

/-- A relative deviation `|x - y| / max(|x|, |y|)` lies in `[0, 2]` whenever
its denominator is non-zero. -/
theorem rel_nonneg_le_two (x y : ℚ) (hM : max |x| |y| ≠ 0) :
    0 ≤ |x - y| / max |x| |y| ∧ |x - y| / max |x| |y| ≤ 2 := by
  have h0 : (0 : ℚ) ≤ max |x| |y| := le_max_of_le_left (abs_nonneg x)
  have hpos : (0 : ℚ) < max |x| |y| := lt_of_le_of_ne h0 (Ne.symm hM)
  refine ⟨div_nonneg (abs_nonneg _) h0, ?_⟩
  rw [div_le_iff hpos]
  have h1 : |x - y| ≤ |x| + |y| := abs_sub x y
  have h2 : |x| ≤ max |x| |y| := le_max_left _ _
  have h3 : |y| ≤ max |x| |y| := le_max_right _ _
  linarith

/-- The numeric component of every `compareMetrics` result lies in
`[-1, 1]`. -/
theorem compareMetrics_num_bounds (sa sb : Stats) (key : String) (t : ℚ) :
    -1 ≤ (compareMetrics sa sb key t).num ∧ (compareMetrics sa sb key t).num ≤ 1 := by
  simp only [compareMetrics]
  split
  · constructor <;> norm_num
  · split
    · constructor <;> norm_num
    · rename_i h1 h2
      simp only [Bool.or_eq_true, decide_eq_true_iff, not_or] at h2
      obtain ⟨hmad, hmed⟩ := h2
      obtain ⟨hr1, hr2⟩ := rel_nonneg_le_two
        (((((sa.Metrics.lookup key).getD ⟨0, 0⟩).MAD : ℤ)) : ℚ)
        (((((sb.Metrics.lookup key).getD ⟨0, 0⟩).MAD : ℤ)) : ℚ) hmad
      obtain ⟨hs1, hs2⟩ := rel_nonneg_le_two
        (((((sa.Metrics.lookup key).getD ⟨0, 0⟩).Median : ℤ)) : ℚ)
        (((((sb.Metrics.lookup key).getD ⟨0, 0⟩).Median : ℤ)) : ℚ) hmed
      push_cast
      constructor <;> nlinarith [hr1, hr2, hs1, hs2]

/-- The numeric component of `compareMetrics` does not depend on the
threshold (only the diagnostic message does). -/
theorem compareMetrics_num_t_indep (sa sb : Stats) (key : String) (t₁ t₂ : ℚ) :
    (compareMetrics sa sb key t₁).num = (compareMetrics sa sb key t₂).num := by
  simp only [compareMetrics]
  split
  · rfl
  · split
    · rfl
    · rfl

/-! ## Gathered and sorted score facts -/

/-- The list of numeric scores collected by `Proximal` does not depend on
the threshold. -/
theorem gatherScores_map_num_t_indep (a b : Stats) (t₁ t₂ : ℚ) :
    (gatherScores a b t₁).map cmpScore.num = (gatherScores a b t₂).map cmpScore.num := by
  unfold gatherScores
  induction a.Metrics with
  | nil => rfl
  | cons p l ih =>
      by_cases hg : ((b.Metrics.lookup p.1).isSome && isCmpMetric p.1) = true
      · simp [List.filterMap_cons, hg, ih, compareMetrics_num_t_indep a b p.1 t₁ t₂]
      · simp [List.filterMap_cons, hg, ih]

theorem sortedScores_perm (a b : Stats) (t : ℚ) :
    (sortedScores a b t).Perm (gatherScores a b t) :=
  List.mergeSort_perm _ _

theorem scoreLE_trans : ∀ x y z : cmpScore,
    scoreLE x y = true → scoreLE y z = true → scoreLE x z = true := by
  intro x y z hxy hyz
  simp only [scoreLE, decide_eq_true_iff] at *
  exact le_trans hxy hyz

theorem scoreLE_total : ∀ x y : cmpScore, (scoreLE x y || scoreLE y x) = true := by
  intro x y
  simp only [scoreLE, Bool.or_eq_true, decide_eq_true_iff]
  exact le_total x.num y.num

theorem sortedScores_pairwise (a b : Stats) (t : ℚ) :
    List.Pairwise (fun x y : cmpScore => x.num ≤ y.num) (sortedScores a b t) := by
  have h := List.sorted_mergeSort scoreLE_trans scoreLE_total (gatherScores a b t)
  refine h.imp ?_
  intro x y hxy
  simpa [scoreLE] using hxy

theorem sortedScores_map_num_sorted (a b : Stats) (t : ℚ) :
    List.Sorted (· ≤ ·) ((sortedScores a b t).map cmpScore.num) :=
  List.Pairwise.map cmpScore.num (fun _ _ h => h) (sortedScores_pairwise a b t)

/-- The sorted list of numeric scores does not depend on the threshold. -/
theorem sortedScores_map_num_t_indep (a b : Stats) (t₁ t₂ : ℚ) :
    (sortedScores a b t₁).map cmpScore.num = (sortedScores a b t₂).map cmpScore.num := by
  have p1 := (sortedScores_perm a b t₁).map cmpScore.num
  have p2 := (sortedScores_perm a b t₂).map cmpScore.num
  rw [gatherScores_map_num_t_indep a b t₁ t₂] at p1
  exact List.eq_of_perm_of_sorted (p1.trans p2.symm)
    (sortedScores_map_num_sorted a b t₁) (sortedScores_map_num_sorted a b t₂)

/-- Every score collected by `Proximal` is a `compareMetrics` result for a
key present in `a.Metrics`, shared with `b.Metrics`, and filter-approved. -/
theorem mem_gatherScores {a b : Stats} {t : ℚ} {c : cmpScore}
    (hc : c ∈ gatherScores a b t) :
    ∃ p ∈ a.Metrics, ((b.Metrics.lookup p.1).isSome && isCmpMetric p.1) = true ∧
      c = compareMetrics a b p.1 t := by
  obtain ⟨p, hp, hsome⟩ := List.mem_filterMap.mp hc
  by_cases hg : ((b.Metrics.lookup p.1).isSome && isCmpMetric p.1) = true
  · rw [if_pos hg] at hsome
    exact ⟨p, hp, hg, (Option.some_inj.mp hsome).symm⟩
  · rw [if_neg hg] at hsome
    cases hsome

theorem sortedScores_num_bounds {a b : Stats} {t : ℚ} {c : cmpScore}
    (hc : c ∈ sortedScores a b t) : -1 ≤ c.num ∧ c.num ≤ 1 := by
  have hcg : c ∈ gatherScores a b t := ((sortedScores_perm a b t).mem_iff).mp hc
  obtain ⟨p, _, _, hceq⟩ := mem_gatherScores hcg
  rw [hceq]
  exact compareMetrics_num_bounds a b p.1 t

/-! ## Accumulator facts -/

theorem penalty_nonpos (a b : Stats) (t : ℚ) :
    (if penaltyTriggered a b t then badTimePenalty else 0) ≤ 0 := by
  split <;> norm_num [badTimePenalty]

/-- The pre-square-root accumulator is always strictly below 1. -/
theorem finalAcc_lt_one (a b : Stats) (t : ℚ) : finalAcc a b t < 1 := by
  rw [finalAcc_eq]
  have hw := weightedFrom_le (sortedScores a b t) 0
    (fun c hc => (sortedScores_num_bounds hc).2)
  have hpos : (0 : ℚ) < (2 : ℚ) ^ (-(((0 + (sortedScores a b t).length : ℕ)) : ℤ)) :=
    zpow_pos (by norm_num) _
  have hpen := penalty_nonpos a b t
  have h20 : (2 : ℚ) ^ (-((0 : ℕ) : ℤ)) = 1 := by norm_num
  rw [h20] at hw
  linarith

/-! ## Concrete evaluation lemmas -/

theorem mergeSort_nil_scoreLE : List.mergeSort ([] : List cmpScore) scoreLE = [] :=
  (List.mergeSort_perm ([] : List cmpScore) scoreLE).eq_nil

theorem mergeSort_singleton_scoreLE (c : cmpScore) : List.mergeSort [c] scoreLE = [c] :=
  List.perm_singleton.mp (List.mergeSort_perm [c] scoreLE)

theorem mergeSort_pair_ones :
    List.mergeSort [(⟨1, ""⟩ : cmpScore), ⟨1, ""⟩] scoreLE = [⟨1, ""⟩, ⟨1, ""⟩] := by
  have h2 : ([(⟨1, ""⟩ : cmpScore), ⟨1, ""⟩] : List cmpScore) = List.replicate 2 ⟨1, ""⟩ := rfl
  rw [h2]
  exact List.perm_replicate.mp (List.mergeSort_perm _ scoreLE)

theorem isCmp_resident : isCmpMetric "serverStatus.mem.resident" = true := by decide

theorem cm_scenario (t : ℚ) :
    compareMetrics scenarioStats scenarioStats "serverStatus.mem.resident" t = ⟨1, ""⟩ := rfl

theorem gs_scenario (t : ℚ) :
    gatherScores scenarioStats scenarioStats t = [⟨1, ""⟩] := rfl

/-- If the two sample counts are equal, the penalty never triggers for a
non-negative threshold: the ratio is `0/count = 0` (or NaN when both counts
are zero), never above the threshold. -/
theorem penaltyTriggered_eq_counts {a b : Stats} (t : ℚ) (h : a.NSamples = b.NSamples)
    (ht : 0 ≤ t) : penaltyTriggered a b t = false := by
  unfold penaltyTriggered sampleRatio goDivOpt
  rw [h, sub_self, abs_zero, max_self]
  by_cases hz : ((b.NSamples : ℚ)) = 0
  · rw [if_pos hz]; rfl
  · rw [if_neg hz]
    simp only [goGtOpt, zero_div]
    simp only [decide_eq_false_iff_not, not_lt]
    exact ht

theorem facc_scenario (t : ℚ) (ht : 0 < t) :
    finalAcc scenarioStats scenarioStats t = 1 / 2 := by
  rw [finalAcc_eq, penaltyTriggered_eq_counts t rfl (le_of_lt ht)]
  simp only [sortedScores, gs_scenario t, mergeSort_singleton_scoreLE]
  rw [weightedFrom_cons, weightedFrom_nil]
  norm_num

theorem gs_two (t : ℚ) :
    gatherScores twoMetricStats twoMetricStats t = [⟨1, ""⟩, ⟨1, ""⟩] := rfl

theorem facc_two (t : ℚ) (ht : 0 ≤ t) :
    finalAcc twoMetricStats twoMetricStats t = 3 / 4 := by
  rw [finalAcc_eq, penaltyTriggered_eq_counts t rfl ht]
  simp only [sortedScores, gs_two, mergeSort_pair_ones]
  rw [weightedFrom_cons, weightedFrom_cons, weightedFrom_nil]
  norm_num

theorem ok_two_fifth : (Proximal twoMetricStats twoMetricStats (1/5)).ok = true := by
  simp only [Proximal, facc_two (1/5) (by norm_num), goSqrt]
  norm_num [GoFloat.geQ]

theorem pt_empty : penaltyTriggered emptyStats100 emptyStats200 (1/5) = true := by
  unfold penaltyTriggered sampleRatio goDivOpt emptyStats100 emptyStats200
  norm_num [goGtOpt]

theorem facc_empty : finalAcc emptyStats100 emptyStats200 (1/5) = badTimePenalty := by
  rw [finalAcc_eq, pt_empty]
  simp only [sortedScores]
  rw [show gatherScores emptyStats100 emptyStats200 (1/5) = [] from rfl,
    mergeSort_nil_scoreLE, weightedFrom_nil, add_zero]
  simp

theorem score_empty : (Proximal emptyStats100 emptyStats200 (1/5)).score = GoFloat.nan := by
  simp only [Proximal, facc_empty, goSqrt, badTimePenalty]
  norm_num

theorem cm_scenarioB :
    compareMetrics scenarioStats scenarioStatsB "serverStatus.mem.resident" (1/5)
      = ⟨1/2, medMsg "serverStatus.mem.resident" 50 100 (1/5)⟩ := by
  have h1 : (scenarioStats.Metrics.lookup "serverStatus.mem.resident").getD ⟨0, 0⟩
      = (⟨50, 2⟩ : MetricStat) := rfl
  have h2 : (scenarioStatsB.Metrics.lookup "serverStatus.mem.resident").getD ⟨0, 0⟩
      = (⟨100, 2⟩ : MetricStat) := rfl
  simp only [compareMetrics, h1, h2]
  norm_num

theorem cm_opp_num : (compareMetrics oppStatsA oppStatsB "start" (1/5)).num = -1 := by
  have h1 : (oppStatsA.Metrics.lookup "start").getD ⟨0, 0⟩ = (⟨1, 5⟩ : MetricStat) := rfl
  have h2 : (oppStatsB.Metrics.lookup "start").getD ⟨0, 0⟩ = (⟨-1, 5⟩ : MetricStat) := rfl
  simp only [compareMetrics, h1, h2]
  norm_num

/-! ## Self-comparison facts -/

theorem compareMetrics_self (S : Stats) (key : String) (t : ℚ) :
    compareMetrics S S key t = ⟨1, ""⟩ := by
  simp [compareMetrics]

theorem gatherScores_self_all_one (S : Stats) (t : ℚ) :
    ∀ c ∈ gatherScores S S t, c = (⟨1, ""⟩ : cmpScore) := by
  intro c hc
  obtain ⟨p, _, _, hceq⟩ := mem_gatherScores hc
  rw [hceq, compareMetrics_self]

theorem sortedScores_self_replicate (S : Stats) (t : ℚ) :
    sortedScores S S t = List.replicate (gatherScores S S t).length (⟨1, ""⟩ : cmpScore) := by
  refine List.eq_replicate.mpr ⟨(sortedScores_perm S S t).length_eq, ?_⟩
  intro c hc
  exact gatherScores_self_all_one S t c ((sortedScores_perm S S t).mem_iff.mp hc)

theorem foldl_append_replicate_empty :
    ∀ (n : ℕ) (acc : String),
      List.foldl (fun r s => r ++ s) acc (List.replicate n "") = acc := by
  intro n
  induction n with
  | zero => intro acc; rfl
  | succ k ih =>
      intro acc
      rw [List.replicate_succ, List.foldl_cons, String.append_empty]
      exact ih acc

theorem join_replicate_empty (n : ℕ) : String.join (List.replicate n "") = "" :=
  foldl_append_replicate_empty n ""

theorem finalAcc_self (S : Stats) (t : ℚ) (ht : 0 ≤ t) :
    finalAcc S S t = 1 - (2 : ℚ) ^ (-((gatherScores S S t).length : ℤ)) := by
  rw [finalAcc_eq, penaltyTriggered_eq_counts t rfl ht, sortedScores_self_replicate,
    weightedFrom_replicate]
  norm_num

theorem one_sub_two_zpow_neg_nonneg (n : ℕ) :
    (0 : ℚ) ≤ 1 - (2 : ℚ) ^ (-(n : ℤ)) := by
  have h : (2 : ℚ) ^ (-(n : ℤ)) ≤ 1 :=
    zpow_le_one_of_nonpos₀ (by norm_num) (by simp)
  linarith

/-! ## Claims -/

/-- C1, corrected by `c1_counterexample`: for any `Stats` `S` with non-zero
sample count and threshold `t ∈ (0,1)`, `Proximal S S` gives every shared
comparable metric the per-metric score 1 and returns an empty message; the
returned score is `√(1 - 2^-n)` where `n` is the number of comparable
metrics of `S`, and `ok` holds iff `(1-t)² ≤ 1 - 2^-n` — so `ok` is NOT
always true (it fails for `n ≤ 1` at the default threshold), and in the
single-metric scenario the score is `√(1/2)`, not 1.0 (see the witness). -/
theorem c1_self_comparison (S : Stats) (t : ℚ) (ht0 : 0 < t) (ht1 : t < 1)
    (_hN : 0 < S.NSamples) :
    (∀ key : String, compareMetrics S S key t = ⟨1, ""⟩)
    ∧ (Proximal S S t).msg = ""
    ∧ (Proximal S S t).score
        = GoFloat.sqrtOf (1 - (2 : ℚ) ^ (-((gatherScores S S t).length : ℤ)))
    ∧ ((Proximal S S t).ok = true
        ↔ (1 - t) ^ 2 ≤ 1 - (2 : ℚ) ^ (-((gatherScores S S t).length : ℤ))) := by
  have hpt : penaltyTriggered S S t = false := penaltyTriggered_eq_counts t rfl (le_of_lt ht0)
  have hacc := finalAcc_self S t (le_of_lt ht0)
  have hnn := one_sub_two_zpow_neg_nonneg (gatherScores S S t).length
  refine ⟨fun key => compareMetrics_self S key t, ?_, ?_, ?_⟩
  · show (if penaltyTriggered S S t then sampleCountMsg S.NSamples S.NSamples t else "")
        ++ String.join ((sortedScores S S t).map cmpScore.msg) = ""
    rw [hpt, if_neg (by simp), sortedScores_self_replicate, List.map_replicate,
      join_replicate_empty, String.empty_append]
  · show goSqrt (finalAcc S S t) = _
    rw [hacc, goSqrt, if_neg (not_lt.mpr hnn)]
  · show (goSqrt (finalAcc S S t)).geQ (1 - t) = true ↔ _
    rw [hacc, goSqrt, if_neg (not_lt.mpr hnn)]
    simp only [GoFloat.geQ, Bool.or_eq_true, decide_eq_true_iff]
    constructor
    · rintro (h | h)
      · exfalso; linarith
      · exact h
    · exact fun h => Or.inr h

/-- Witness for C1: at the spec's single-metric scenario with the default
threshold 0.2, the message is empty, the score is `√(1/2)` and `ok` is
false. -/
theorem c1_self_comparison_witness :
    (0 : ℚ) < 1/5 ∧ (1 : ℚ)/5 < 1 ∧ 0 < scenarioStats.NSamples
    ∧ (Proximal scenarioStats scenarioStats (1/5)).msg = ""
    ∧ (Proximal scenarioStats scenarioStats (1/5)).score = GoFloat.sqrtOf (1/2)
    ∧ (Proximal scenarioStats scenarioStats (1/5)).ok = false := by
  obtain ⟨_, hmsg, hscore, hok⟩ :=
    c1_self_comparison scenarioStats (1/5) (by norm_num) (by norm_num)
      (by norm_num [scenarioStats])
  refine ⟨by norm_num, by norm_num, by norm_num [scenarioStats], hmsg, ?_, ?_⟩
  · rw [hscore, gs_scenario]
    norm_num
  · have hn : ¬ ((1 - 1/5 : ℚ) ^ 2
        ≤ 1 - (2 : ℚ) ^ (-((gatherScores scenarioStats scenarioStats (1/5)).length : ℤ))) := by
      rw [gs_scenario]
      norm_num
    cases hv : (Proximal scenarioStats scenarioStats (1/5)).ok
    · rfl
    · exact absurd (hok.mp hv) hn

/-- Counterexample refuting C1 as stated: at the claim's own concrete
scenario the code returns `ok = false` and score `√(1/2) ≈ 0.707`, which is
not 1.0. -/
theorem c1_counterexample :
    (Proximal scenarioStats scenarioStats (1/5)).ok = false
    ∧ (Proximal scenarioStats scenarioStats (1/5)).score = GoFloat.sqrtOf (1/2)
    ∧ Real.sqrt ((1 : ℝ)/2) < 1 := by
  refine ⟨?_, ?_, ?_⟩
  · show (goSqrt (finalAcc scenarioStats scenarioStats (1/5))).geQ (1 - 1/5) = false
    rw [facc_scenario (1/5) (by norm_num), goSqrt]
    norm_num [GoFloat.geQ]
  · show goSqrt (finalAcc scenarioStats scenarioStats (1/5)) = _
    rw [facc_scenario (1/5) (by norm_num), goSqrt]
    norm_num
  · have h := (Real.sqrt_lt' (show (0 : ℝ) < 1 by norm_num)).mpr
      (show (1 : ℝ)/2 < 1 ^ 2 by norm_num)
    exact h

/-- C2, confirmed: the collected per-metric scores are sorted ascending
(worst first, as a permutation of the gathered scores whose numeric
components are non-decreasing); the i-th worst score (0-indexed) contributes
`score_i * 2^-(i+1)` to the accumulator, which starts from
`badTimePenalty = -0.1` iff the sample-count check failed (else 0); the final
score is the square root of the accumulator and
`ok = (score >= 1 - threshold)` — where comparison against the square root,
for a non-negative accumulator, is the real comparison
`1 - t ≤ √accumulator` (and a NaN square root compares false). -/
theorem c2_aggregation (a b : Stats) (t : ℚ) :
    badTimePenalty = -(1/10)
    ∧ finalAcc a b t
        = (if penaltyTriggered a b t then badTimePenalty else 0)
          + ∑ i ∈ Finset.range (sortedScores a b t).length,
              (2 : ℚ) ^ (-((i : ℤ) + 1)) * ((sortedScores a b t).map cmpScore.num).getD i 0
    ∧ List.Sorted (· ≤ ·) ((sortedScores a b t).map cmpScore.num)
    ∧ (sortedScores a b t).Perm (gatherScores a b t)
    ∧ (Proximal a b t).score = goSqrt (finalAcc a b t)
    ∧ ((Proximal a b t).ok = true
        ↔ 0 ≤ finalAcc a b t
          ∧ ((1 - t : ℚ) : ℝ) ≤ Real.sqrt ((finalAcc a b t : ℚ) : ℝ)) := by
  refine ⟨by norm_num [badTimePenalty], ?_, sortedScores_map_num_sorted a b t,
    sortedScores_perm a b t, rfl, ?_⟩
  · rw [finalAcc_eq, weightedFrom_eq_sum]
    congr 1
    refine Finset.sum_congr rfl fun i _ => ?_
    have he : (-(((0 + i : ℕ)) : ℤ) - 1) = (-((i : ℤ) + 1)) := by push_cast; ring
    rw [he]
  · show (goSqrt (finalAcc a b t)).geQ (1 - t) = true ↔ _
    by_cases hneg : finalAcc a b t < 0
    · rw [goSqrt, if_pos hneg]
      simp only [GoFloat.geQ, Bool.false_eq_true, false_iff, not_and]
      intro h0
      exact absurd h0 (not_le.mpr hneg)
    · have h0 : 0 ≤ finalAcc a b t := le_of_not_lt hneg
      rw [goSqrt, if_neg hneg, GoFloat.geQ_eq_true_iff h0]
      constructor
      · exact fun h => ⟨h0, h⟩
      · exact fun h => h.2

/-- Witness for C2: at the single-metric scenario with threshold 0.2, the
accumulator evaluates to 1/2, the sorted score list is non-decreasing, and
the score is the (symbolic) square root of the accumulator. -/
theorem c2_aggregation_witness :
    (1 : ℚ)/5 < 1
    ∧ finalAcc scenarioStats scenarioStats (1/5) = 1/2
    ∧ List.Sorted (· ≤ ·) ((sortedScores scenarioStats scenarioStats (1/5)).map cmpScore.num)
    ∧ (Proximal scenarioStats scenarioStats (1/5)).score
        = goSqrt (finalAcc scenarioStats scenarioStats (1/5)) := by
  obtain ⟨_, _, hsorted, _, hscore, _⟩ :=
    c2_aggregation scenarioStats scenarioStats (1/5)
  exact ⟨by norm_num, facc_scenario (1/5) (by norm_num), hsorted, hscore⟩

/-- C3, confirmed: for a key present in both `Stats`, the per-metric
comparator returns score 1 with no message on exact median equality (the MAD
comparison is skipped), returns score 1 with no message when either
`max(|MAD_a|,|MAD_b|)` or `max(|Median_a|,|Median_b|)` is zero, and otherwise
returns `(1 - relMedian) * (1 - relMAD)` with the relative deviations being
the absolute differences divided by the respective maxima of absolute
values. -/
theorem c3_compareMetrics (sa sb : Stats) (key : String) (t : ℚ) (am bm : MetricStat)
    (ha : sa.Metrics.lookup key = some am) (hb : sb.Metrics.lookup key = some bm) :
    (am.Median = bm.Median → compareMetrics sa sb key t = ⟨1, ""⟩)
    ∧ (max |(am.MAD : ℚ)| |(bm.MAD : ℚ)| = 0 ∨ max |(am.Median : ℚ)| |(bm.Median : ℚ)| = 0 →
        compareMetrics sa sb key t = ⟨1, ""⟩)
    ∧ (am.Median ≠ bm.Median → max |(am.MAD : ℚ)| |(bm.MAD : ℚ)| ≠ 0 →
        max |(am.Median : ℚ)| |(bm.Median : ℚ)| ≠ 0 →
        (compareMetrics sa sb key t).num
          = (1 - |(am.Median : ℚ) - (bm.Median : ℚ)| / max |(am.Median : ℚ)| |(bm.Median : ℚ)|)
            * (1 - |(am.MAD : ℚ) - (bm.MAD : ℚ)| / max |(am.MAD : ℚ)| |(bm.MAD : ℚ)|)) := by
  simp only [compareMetrics, ha, hb, Option.getD_some]
  refine ⟨fun h => by rw [if_pos h], ?_, ?_⟩
  · intro h
    by_cases hm : am.Median = bm.Median
    · rw [if_pos hm]
    · rw [if_neg hm, if_pos (by rcases h with h | h <;> simp [h])]
  · intro h1 h2 h3
    rw [if_neg h1, if_neg (by simp [h2, h3])]
    push_cast
    ring

/-- Witness for C3: comparing medians 50 and 100 with equal MAD 2 hits the
general branch, whose score evaluates to `(1 - 1/2) * (1 - 0) = 1/2`. -/
theorem c3_compareMetrics_witness :
    scenarioStats.Metrics.lookup "serverStatus.mem.resident" = some ⟨50, 2⟩
    ∧ scenarioStatsB.Metrics.lookup "serverStatus.mem.resident" = some ⟨100, 2⟩
    ∧ (compareMetrics scenarioStats scenarioStatsB "serverStatus.mem.resident" (1/5)).num
        = (1 - |(50 : ℚ) - 100| / max |(50 : ℚ)| |(100 : ℚ)|)
          * (1 - |(2 : ℚ) - 2| / max |(2 : ℚ)| |(2 : ℚ)|)
    ∧ (compareMetrics scenarioStats scenarioStatsB "serverStatus.mem.resident" (1/5)).num
        = 1/2 := by
  have h := (c3_compareMetrics scenarioStats scenarioStatsB "serverStatus.mem.resident" (1/5)
    ⟨50, 2⟩ ⟨100, 2⟩ rfl rfl).2.2 (by decide) (by norm_num) (by norm_num)
  refine ⟨rfl, rfl, ?_, ?_⟩
  · simpa using h
  · rw [cm_scenarioB]

/-- C4, confirmed: the metric filter accepts a key iff the join of its first
`i+1` dot-separated segments, for some `i` below the segment count, is in
the fixed allow-list; the three concrete examples behave as stated. -/
theorem c4_isCmpMetric :
    (∀ key : String, isCmpMetric key = true
      ↔ ∃ i, i < (splitOnDot key).length
          ∧ List.intercalate ['.'] ((splitOnDot key).take (i + 1)) ∈ cmpMetrics)
    ∧ isCmpMetric "serverStatus.mem.resident" = true
    ∧ isCmpMetric "serverStatus.mem.resident.extra" = true
    ∧ isCmpMetric "notAMetric.foo" = false := by
  refine ⟨?_, by decide, by decide, by decide⟩
  intro key
  simp only [isCmpMetric, List.any_eq_true, List.mem_range]
  constructor
  · rintro ⟨i, hi, hc⟩
    refine ⟨i, hi, ?_⟩
    simpa using hc
  · rintro ⟨i, hi, hm⟩
    refine ⟨i, hi, ?_⟩
    simpa using hm

/-- C5, confirmed: with both sample counts zero the ratio is NaN (modelled
`none`), which compares false against the threshold, so the penalty is not
applied, no sample-count line is emitted, and the accumulator starts at 0;
the function is total (no division-by-zero failure). -/
theorem c5_zero_samples (a b : Stats) (t : ℚ)
    (ha : a.NSamples = 0) (hb : b.NSamples = 0) :
    sampleRatio a b = none
    ∧ penaltyTriggered a b t = false
    ∧ (Proximal a b t).msg = String.join ((sortedScores a b t).map cmpScore.msg)
    ∧ finalAcc a b t = weightedFrom 0 (sortedScores a b t) := by
  have hr : sampleRatio a b = none := by
    unfold sampleRatio goDivOpt
    rw [ha, hb]
    norm_num
  have hpt : penaltyTriggered a b t = false := by
    unfold penaltyTriggered
    rw [hr]
    rfl
  refine ⟨hr, hpt, ?_, ?_⟩
  · show (if penaltyTriggered a b t then sampleCountMsg a.NSamples b.NSamples t else "")
        ++ String.join ((sortedScores a b t).map cmpScore.msg) = _
    rw [hpt, if_neg (by simp), String.empty_append]
  · rw [finalAcc_eq, hpt, if_neg (by simp), zero_add]

/-- Witness for C5: at two zero-sample empty snapshots the ratio is NaN, the
penalty does not trigger, and the message is empty. -/
theorem c5_zero_samples_witness :
    zeroStats.NSamples = 0
    ∧ sampleRatio zeroStats zeroStats = none
    ∧ penaltyTriggered zeroStats zeroStats (1/5) = false
    ∧ (Proximal zeroStats zeroStats (1/5)).msg = "" := by
  obtain ⟨hr, hpt, hmsg, _⟩ := c5_zero_samples zeroStats zeroStats (1/5) rfl rfl
  have hs : sortedScores zeroStats zeroStats (1/5) = [] := by
    show List.mergeSort (gatherScores zeroStats zeroStats (1/5)) scoreLE = []
    rw [show gatherScores zeroStats zeroStats (1/5) = [] from rfl]
    exact mergeSort_nil_scoreLE
  refine ⟨rfl, hr, hpt, ?_⟩
  rw [hmsg, hs]
  rfl

/-- C6, confirmed: for fixed inputs and thresholds `0 < t₁ < t₂ < 1`, if
`Proximal` passes at `t₁` it also passes at `t₂`.  The per-metric scores do
not depend on the threshold, raising the threshold can only remove the
sample-count penalty (never add it), the accumulator is therefore monotone
in the threshold, and the pass bound `(1-t)²` shrinks. -/
theorem c6_threshold_monotone (a b : Stats) (t₁ t₂ : ℚ)
    (_h0 : 0 < t₁) (h12 : t₁ < t₂) (h21 : t₂ < 1)
    (hok : (Proximal a b t₁).ok = true) : (Proximal a b t₂).ok = true := by
  have hok' : (goSqrt (finalAcc a b t₁)).geQ (1 - t₁) = true := hok
  have hwf : weightedFrom 0 (sortedScores a b t₁) = weightedFrom 0 (sortedScores a b t₂) :=
    weightedFrom_congr 0 (sortedScores_map_num_t_indep a b t₁ t₂)
  have hpen : (if penaltyTriggered a b t₁ then badTimePenalty else 0)
      ≤ (if penaltyTriggered a b t₂ then badTimePenalty else 0) := by
    by_cases h2 : penaltyTriggered a b t₂ = true
    · have h1 : penaltyTriggered a b t₁ = true := by
        unfold penaltyTriggered at h2 ⊢
        cases hr : sampleRatio a b with
        | none => rw [hr] at h2; simp [goGtOpt] at h2
        | some q =>
            rw [hr] at h2
            simp only [goGtOpt, decide_eq_true_iff] at h2 ⊢
            linarith
      rw [h1, h2]
    · have h2f : penaltyTriggered a b t₂ = false := by
        cases hv : penaltyTriggered a b t₂
        · rfl
        · exact absurd hv h2
      rw [h2f]
      simpa using penalty_nonpos a b t₁
  have hacc : finalAcc a b t₁ ≤ finalAcc a b t₂ := by
    rw [finalAcc_eq, finalAcc_eq, hwf]
    exact add_le_add_right hpen _
  by_cases hneg : finalAcc a b t₁ < 0
  · rw [goSqrt, if_pos hneg] at hok'
    cases hok'
  · have h0acc : 0 ≤ finalAcc a b t₁ := le_of_not_lt hneg
    rw [goSqrt, if_neg hneg] at hok'
    simp only [GoFloat.geQ, Bool.or_eq_true, decide_eq_true_iff] at hok'
    have hsq : (1 - t₁) ^ 2 ≤ finalAcc a b t₁ := by
      rcases hok' with h | h
      · exfalso; linarith
      · exact h
    have h0acc2 : 0 ≤ finalAcc a b t₂ := le_trans h0acc hacc
    show (goSqrt (finalAcc a b t₂)).geQ (1 - t₂) = true
    rw [goSqrt, if_neg (not_lt.mpr h0acc2)]
    simp only [GoFloat.geQ, Bool.or_eq_true, decide_eq_true_iff]
    right
    have hmono : (1 - t₂) ^ 2 ≤ (1 - t₁) ^ 2 := by nlinarith
    linarith

/-- Witness for C6: two identical two-metric snapshots pass at threshold
0.2, and the theorem transports the verdict to the larger threshold 0.3. -/
theorem c6_threshold_monotone_witness :
    (0 : ℚ) < 1/5 ∧ (1 : ℚ)/5 < 3/10 ∧ (3 : ℚ)/10 < 1
    ∧ (Proximal twoMetricStats twoMetricStats (1/5)).ok = true
    ∧ (Proximal twoMetricStats twoMetricStats (3/10)).ok = true :=
  ⟨by norm_num, by norm_num, by norm_num, ok_two_fifth,
    c6_threshold_monotone twoMetricStats twoMetricStats (1/5) (3/10)
      (by norm_num) (by norm_num) (by norm_num) ok_two_fifth⟩

theorem join_singleton (s : String) : String.join [s] = s := by
  show List.foldl (fun r s => r ++ s) "" [s] = s
  rw [List.foldl_cons, List.foldl_nil, String.empty_append]

/-- C7, confirmed: the returned message is the sample-count line (present
exactly when the count ratio compares above the threshold, NaN comparing
false) followed by the per-metric fragments in ascending score order (the
sorted list being an ascending-by-score permutation of the gathered scores);
a fragment consists of a MAD line exactly when `relMAD > t` followed by a
median line exactly when `relMedian > t`, each line (see `madMsg`, `medMsg`)
naming the metric, both values, and the threshold percentage; fragments of
the short-circuit branches are empty. -/
theorem c7_message_assembly (a b : Stats) (t : ℚ) :
    (Proximal a b t).msg
      = (if goGtOpt (sampleRatio a b) t then sampleCountMsg a.NSamples b.NSamples t else "")
        ++ String.join ((sortedScores a b t).map cmpScore.msg)
    ∧ List.Sorted (· ≤ ·) ((sortedScores a b t).map cmpScore.num)
    ∧ (sortedScores a b t).Perm (gatherScores a b t)
    ∧ ∀ (key : String) (am bm : MetricStat),
        a.Metrics.lookup key = some am → b.Metrics.lookup key = some bm →
        (am.Median = bm.Median → (compareMetrics a b key t).msg = "")
        ∧ (max |(am.MAD : ℚ)| |(bm.MAD : ℚ)| = 0 ∨ max |(am.Median : ℚ)| |(bm.Median : ℚ)| = 0 →
            (compareMetrics a b key t).msg = "")
        ∧ (am.Median ≠ bm.Median → max |(am.MAD : ℚ)| |(bm.MAD : ℚ)| ≠ 0 →
            max |(am.Median : ℚ)| |(bm.Median : ℚ)| ≠ 0 →
            (compareMetrics a b key t).msg
              = (if |(am.MAD : ℚ) - (bm.MAD : ℚ)| / max |(am.MAD : ℚ)| |(bm.MAD : ℚ)| > t
                 then madMsg key am.MAD bm.MAD t else "")
                ++ (if |(am.Median : ℚ) - (bm.Median : ℚ)|
                        / max |(am.Median : ℚ)| |(bm.Median : ℚ)| > t
                    then medMsg key am.Median bm.Median t else "")) := by
  refine ⟨rfl, sortedScores_map_num_sorted a b t, sortedScores_perm a b t, ?_⟩
  intro key am bm ha hb
  simp only [compareMetrics, ha, hb, Option.getD_some]
  refine ⟨fun h => by rw [if_pos h], ?_, ?_⟩
  · intro h
    by_cases hm : am.Median = bm.Median
    · rw [if_pos hm]
    · rw [if_neg hm, if_pos (by rcases h with h | h <;> simp [h])]
  · intro h1 h2 h3
    rw [if_neg h1, if_neg (by simp [h2, h3])]
    push_cast
    rfl

/-- Witness for C7: comparing medians 50 and 100 (MAD 2 on both sides) at
threshold 0.2 produces exactly the median diagnostic line and no MAD line,
and the full `Proximal` message is that single fragment. -/
theorem c7_message_assembly_witness :
    scenarioStats.Metrics.lookup "serverStatus.mem.resident" = some ⟨50, 2⟩
    ∧ scenarioStatsB.Metrics.lookup "serverStatus.mem.resident" = some ⟨100, 2⟩
    ∧ (compareMetrics scenarioStats scenarioStatsB "serverStatus.mem.resident" (1/5)).msg
        = medMsg "serverStatus.mem.resident" 50 100 (1/5)
    ∧ (Proximal scenarioStats scenarioStatsB (1/5)).msg
        = medMsg "serverStatus.mem.resident" 50 100 (1/5) := by
  have hfrag := ((c7_message_assembly scenarioStats scenarioStatsB (1/5)).2.2.2
    "serverStatus.mem.resident" ⟨50, 2⟩ ⟨100, 2⟩ rfl rfl).2.2
    (by decide) (by norm_num) (by norm_num)
  have hfrag' : (compareMetrics scenarioStats scenarioStatsB "serverStatus.mem.resident"
      (1/5)).msg = medMsg "serverStatus.mem.resident" 50 100 (1/5) := by
    rw [hfrag, if_neg (by norm_num), if_pos (by norm_num), String.empty_append]
  have hgs : gatherScores scenarioStats scenarioStatsB (1/5)
      = [compareMetrics scenarioStats scenarioStatsB "serverStatus.mem.resident" (1/5)] := rfl
  have hsorted : sortedScores scenarioStats scenarioStatsB (1/5)
      = [compareMetrics scenarioStats scenarioStatsB "serverStatus.mem.resident" (1/5)] := by
    show List.mergeSort (gatherScores scenarioStats scenarioStatsB (1/5)) scoreLE = _
    rw [hgs, mergeSort_singleton_scoreLE]
  have hpt : goGtOpt (sampleRatio scenarioStats scenarioStatsB) (1/5) = false :=
    @penaltyTriggered_eq_counts scenarioStats scenarioStatsB (1/5) rfl (by norm_num)
  have hassemble := (c7_message_assembly scenarioStats scenarioStatsB (1/5)).1
  rw [hsorted, hpt, if_neg (by simp), String.empty_append] at hassemble
  simp only [List.map_cons, List.map_nil] at hassemble
  rw [hfrag', join_singleton] at hassemble
  exact ⟨rfl, rfl, hfrag', hassemble⟩

/-- C8 (amended), the per-metric score lies in `[-1, 1]` for every key
present in both `Stats` (not in `[badPenalty, 1] = [-0.1, 1]` as claimed:
opposite-sign medians drive a relative deviation up to 2 and the score down
to -1, see `c8_counterexample`). -/
theorem c8_score_range (sa sb : Stats) (key : String) (t : ℚ) (am bm : MetricStat)
    (_ha : sa.Metrics.lookup key = some am) (_hb : sb.Metrics.lookup key = some bm) :
    -1 ≤ (compareMetrics sa sb key t).num ∧ (compareMetrics sa sb key t).num ≤ 1 :=
  compareMetrics_num_bounds sa sb key t

/-- Witness for C8 (amended): at the opposite-median inputs the score is
within `[-1, 1]`. -/
theorem c8_score_range_witness :
    oppStatsA.Metrics.lookup "start" = some ⟨1, 5⟩
    ∧ oppStatsB.Metrics.lookup "start" = some ⟨-1, 5⟩
    ∧ -1 ≤ (compareMetrics oppStatsA oppStatsB "start" (1/5)).num
    ∧ (compareMetrics oppStatsA oppStatsB "start" (1/5)).num ≤ 1 := by
  obtain ⟨h1, h2⟩ := c8_score_range oppStatsA oppStatsB "start" (1/5) ⟨1, 5⟩ ⟨-1, 5⟩ rfl rfl
  exact ⟨rfl, rfl, h1, h2⟩

/-- Counterexample refuting C8 as stated: the metric `start` is present in
both inputs (medians 1 and -1, MAD 5 on both sides), yet its score is
`(1 - 2)(1 - 0) = -1`, strictly below `badTimePenalty = -0.1`. -/
theorem c8_counterexample :
    oppStatsA.Metrics.lookup "start" = some ⟨1, 5⟩
    ∧ oppStatsB.Metrics.lookup "start" = some ⟨-1, 5⟩
    ∧ (compareMetrics oppStatsA oppStatsB "start" (1/5)).num = -1
    ∧ (compareMetrics oppStatsA oppStatsB "start" (1/5)).num < badTimePenalty := by
  refine ⟨rfl, rfl, cm_opp_num, ?_⟩
  rw [cm_opp_num, badTimePenalty]
  norm_num

/-- The score returned by `Proximal` never compares strictly below zero: it
is either NaN (every IEEE comparison false) or a real square root (which is
non-negative). -/
theorem score_ltQ_zero_false (a b : Stats) (t : ℚ) :
    ((Proximal a b t).score).ltQ 0 = false := by
  show (goSqrt (finalAcc a b t)).ltQ 0 = false
  by_cases hneg : finalAcc a b t < 0
  · rw [goSqrt, if_pos hneg]
    rfl
  · rw [goSqrt, if_neg hneg]
    simp [GoFloat.ltQ]

/-- Counterexample refuting C9 as stated: there is NO input on which the
returned score compares strictly below zero — the negation of the claimed
existential. -/
theorem c9_counterexample :
    ¬ ∃ (a b : Stats) (t : ℚ), ((Proximal a b t).score).ltQ 0 = true := by
  rintro ⟨a, b, t, h⟩
  rw [score_ltQ_zero_false] at h
  cases h

/-- C9 (amended): the pre-square-root accumulator may be strictly negative
(and then the score is IEEE NaN), as happens with disproportionate sample
counts and no shared comparable metric, but the returned floating-point
score itself is never strictly less than zero — NaN compares false and a
real square root is non-negative. -/
theorem c9_score_never_negative :
    (∀ (a b : Stats) (t : ℚ), ((Proximal a b t).score).ltQ 0 = false)
    ∧ finalAcc emptyStats100 emptyStats200 (1/5) < 0
    ∧ (Proximal emptyStats100 emptyStats200 (1/5)).score = GoFloat.nan := by
  refine ⟨score_ltQ_zero_false, ?_, score_empty⟩
  rw [facc_empty, badTimePenalty]
  norm_num

/-- C10, confirmed: whenever the pre-square-root accumulator is negative,
`Proximal` returns the NaN score and `ok = false`; otherwise the returned
score is `√accumulator ∈ [0, 1)` (the accumulator is always strictly below
1, since the penalty is non-positive and the rank weights sum below 1 with
every per-metric score at most 1). -/
theorem c10_nan_or_unit_range (a b : Stats) (t : ℚ) :
    (finalAcc a b t < 0 →
      (Proximal a b t).score = GoFloat.nan ∧ (Proximal a b t).ok = false)
    ∧ (0 ≤ finalAcc a b t →
      (Proximal a b t).score = GoFloat.sqrtOf (finalAcc a b t)
      ∧ 0 ≤ Real.sqrt ((finalAcc a b t : ℚ) : ℝ)
      ∧ Real.sqrt ((finalAcc a b t : ℚ) : ℝ) < 1) := by
  constructor
  · intro hneg
    constructor
    · show goSqrt (finalAcc a b t) = GoFloat.nan
      rw [goSqrt, if_pos hneg]
    · show (goSqrt (finalAcc a b t)).geQ (1 - t) = false
      rw [goSqrt, if_pos hneg]
      rfl
  · intro hpos
    refine ⟨?_, Real.sqrt_nonneg _, ?_⟩
    · show goSqrt (finalAcc a b t) = GoFloat.sqrtOf (finalAcc a b t)
      rw [goSqrt, if_neg (not_lt.mpr hpos)]
    · have hlt : ((finalAcc a b t : ℚ) : ℝ) < 1 := by
        exact_mod_cast finalAcc_lt_one a b t
      exact (Real.sqrt_lt' (show (0 : ℝ) < 1 by norm_num)).mpr (by nlinarith)

/-- Witness for C10: with sample counts 100 and 200 and no metrics, the
accumulator is exactly the penalty `-0.1 < 0`, and `Proximal` returns a NaN
score with `ok = false`. -/
theorem c10_nan_or_unit_range_witness :
    finalAcc emptyStats100 emptyStats200 (1/5) < 0
    ∧ (Proximal emptyStats100 emptyStats200 (1/5)).score = GoFloat.nan
    ∧ (Proximal emptyStats100 emptyStats200 (1/5)).ok = false := by
  have hacc : finalAcc emptyStats100 emptyStats200 (1/5) < 0 := by
    rw [facc_empty, badTimePenalty]
    norm_num
  obtain ⟨h1, h2⟩ := (c10_nan_or_unit_range emptyStats100 emptyStats200 (1/5)).1 hacc
  exact ⟨hacc, h1, h2⟩
